import Mathlib

/-!
Shallow embedding of the dg analysis core: the `Offset`/`Pointer` primitives
(src/src/llvm/AnalysisGeneric.h), the `SmallOffsetsPointsToSet` container
(src/include/dg/analysis/PointsTo/SmallOffsetsPointsToSet.h) and the
`RDNode`/`ReachingDefinitionsAnalysis` model
(src/include/dg/analysis/ReachingDefinitions/ReachingDefinitions.h),
together with proofs of the specified properties.

Machine integers (`uint64_t`, `size_t`) are modelled as `Nat` with explicit
`% 2 ^ 64` where C++ arithmetic can wrap.  The process-wide static
`ids`/`idVector` tables of `SmallOffsetsPointsToSet` are modelled by explicit
state passing: every operation takes the current identity table (a list of
targets in assignment order, collapsing the always-synchronised map and
vector into one structure) and returns the possibly extended table.
-/

/-- UNKNOWN_OFFSET from AnalysisGeneric.h: `~((uint64_t) 0)`, i.e. 2^64 - 1. -/
def UNKNOWN_OFFSET : ℕ := 2 ^ 64 - 1

/-- Offset from AnalysisGeneric.h: a wrapper around a `uint64_t` byte offset,
where the value `UNKNOWN_OFFSET` encodes a statically unknown offset. -/
structure Offset where
  offset : ℕ
  deriving DecidableEq, Repr

/-- Offset::isUnknown. -/
def Offset.isUnknown (o : Offset) : Bool := o.offset = UNKNOWN_OFFSET

/-- The distinguished unknown offset value `Offset::UNKNOWN`. -/
def Offset.UNKNOWN : Offset := ⟨UNKNOWN_OFFSET⟩

/-- Offset::operator+ from AnalysisGeneric.h: if either operand is
UNKNOWN_OFFSET the result is UNKNOWN_OFFSET, otherwise the `uint64_t` sum,
which wraps modulo 2^64. -/
def Offset.addOp (a b : Offset) : Offset :=
  if a.offset = UNKNOWN_OFFSET ∨ b.offset = UNKNOWN_OFFSET then Offset.UNKNOWN
  else ⟨(a.offset + b.offset) % 2 ^ 64⟩

/-- Modelled from the spec: `Offset::inRange(from, to)` of the missing
dg/analysis/Offset.h header — whether the query offset lies inside the byte
range, i.e. the range contains the offset (inclusive bounds). -/
def Offset.inRange (o : Offset) (lo hi : ℕ) : Bool :=
  lo ≤ o.offset && o.offset ≤ hi

/-- Abstract memory-target identities standing for the `PSNode*` / `RDNode*`
pointers used as targets; distinct naturals model distinct nodes. -/
abbrev Target : Type := ℕ

/-- Modelled from the spec: `Pointer` of the missing
dg/analysis/PointsTo/Pointer.h header — a (MemoryTarget, Offset) pair with
field-wise equality (the spec: equality is lexicographic on (target, offset)).
It matches the `Pointer` structure in src/src/llvm/AnalysisGeneric.h. -/
structure Pointer where
  target : Target
  offset : Offset
  deriving DecidableEq, Repr

/-- DefSite: a (target, offset, length) byte-range descriptor, used in the
defs/overwrites/uses collections of RDNode (declared in the missing
RDMap.h header; its three fields are fixed by their uses in
ReachingDefinitions.h and the spec). -/
structure DefSite where
  target : Target
  offset : Offset
  len : Offset
  deriving DecidableEq, Repr

/-- RDNodeType from ReachingDefinitions.h. -/
inductive RDNodeType where
  | NONE | ALLOC | DYN_ALLOC | STORE | LOAD | PHI | RETURN | CALL
  | CALL_RETURN | FORK | JOIN | NOOP
  deriving DecidableEq, Repr

/-- RDNode from ReachingDefinitions.h, restricted to the fields the verified
operations read or write: the kind tag and the three DefSite collections
(`std::set<DefSite>` modelled as `Finset DefSite`).  The `def_map` RDMap
(declared in the missing RDMap.h) and the graph-edge bookkeeping are not
modelled; no operation below touches them. -/
structure RDNode where
  type : RDNodeType
  defs : Finset DefSite
  overwrites : Finset DefSite
  uses : Finset DefSite

/-- A fresh node with empty collections, as built by the RDNode constructor. -/
def RDNode.mkNode (t : RDNodeType) : RDNode := ⟨t, ∅, ∅, ∅⟩

/-- RDNode::addDef(const DefSite&, bool strong_update): inserts into
`overwrites` when strong, else into `defs`.  (The eager `def_map.update`
call operates on the unmodelled RDMap only.) -/
def RDNode.addDef (n : RDNode) (ds : DefSite) (strong_update : Bool) : RDNode :=
  if strong_update then { n with overwrites := insert ds n.overwrites }
  else { n with defs := insert ds n.defs }

/-- RDNode::addOverwrites(const DefSite&). -/
def RDNode.addOverwrites (n : RDNode) (ds : DefSite) : RDNode :=
  { n with overwrites := insert ds n.overwrites }

/-- RDNode::getOverwrites, the non-const overload (line 100): returns the
`overwrites` member. -/
def RDNode.getOverwrites (n : RDNode) : Finset DefSite := n.overwrites

/-- RDNode::getOverwrites, the const overload (line 103): the source returns
the `defs` member, not `overwrites` — embedded faithfully. -/
def RDNode.getOverwritesConst (n : RDNode) : Finset DefSite := n.defs

/-- RDNode::defines(target, off): for an unknown query offset the source
scans only `defs`; for a finite offset it scans `defs` and then `overwrites`,
testing `off.inRange(*ds.offset, *ds.offset + *ds.len)` where the bound is
computed in wrapping `uint64_t` arithmetic. -/
def RDNode.defines (n : RDNode) (target : Target) (off : Offset) : Bool :=
  if off.isUnknown then
    decide (∃ ds ∈ n.defs, ds.target = target)
  else
    decide (∃ ds ∈ n.defs, ds.target = target ∧
      off.inRange ds.offset.offset ((ds.offset.offset + ds.len.offset) % 2 ^ 64) = true) ||
    decide (∃ ds ∈ n.overwrites, ds.target = target ∧
      off.inRange ds.offset.offset ((ds.offset.offset + ds.len.offset) % 2 ^ 64) = true)

/-- The coverage predicate in the words of the claim: a DefSite in the defs
or overwrites collections covers (target, o) — for finite o, a site with
that target whose byte range contains o; for o = UNKNOWN, a site with that
target in either collection. -/
def RDNode.coversClaim (n : RDNode) (target : Target) (off : Offset) : Bool :=
  if off.isUnknown then
    decide (∃ ds ∈ n.defs, ds.target = target) ||
    decide (∃ ds ∈ n.overwrites, ds.target = target)
  else
    decide (∃ ds ∈ n.defs, ds.target = target ∧
      off.inRange ds.offset.offset ((ds.offset.offset + ds.len.offset) % 2 ^ 64) = true) ||
    decide (∃ ds ∈ n.overwrites, ds.target = target ∧
      off.inRange ds.offset.offset ((ds.offset.offset + ds.len.offset) % 2 ^ 64) = true)

/-- Modelled from the spec: ReachingDefinitionsAnalysisOptions of the missing
ReachingDefinitionsAnalysisOptions.h header, restricted to the `maxSetSize`
configuration value used by the constructor assertion (spec: positive
integer bounding RDMap contributor-set precision). -/
structure ReachingDefinitionsAnalysisOptions where
  maxSetSize : ℕ

/-- ReachingDefinitionsGraph, restricted to the `root` pointer the
constructor assertion inspects; a null `RDNode*` root is `none`. -/
structure ReachingDefinitionsGraph where
  root : Option RDNode

/-- The state built by a successful ReachingDefinitionsAnalysis constructor:
the moved-in graph, `dfsnum` initialised to 0, and the options. -/
structure ReachingDefinitionsAnalysis where
  graph : ReachingDefinitionsGraph
  dfsnum : ℕ
  options : ReachingDefinitionsAnalysisOptions

/-- The ReachingDefinitionsAnalysis constructor with its two assertions
(lines 346-354): `assert(graph.getRoot() && "Root cannot be null")` then
`assert(options.maxSetSize > 0 && ...)`; an assertion failure is a fatal
construction error, modelled as `Except.error` carrying the assert message. -/
def ReachingDefinitionsAnalysis.construct (g : ReachingDefinitionsGraph)
    (opts : ReachingDefinitionsAnalysisOptions) :
    Except String ReachingDefinitionsAnalysis :=
  if g.root.isNone then .error "Root cannot be null"
  else if ¬ opts.maxSetSize > 0 then .error "The set size must be at least 1"
  else .ok ⟨g, 0, opts⟩

/-- SmallOffsetsPointsToSet data members: the `SparseBitvector pointers`
dense index, modelled from the spec as the set of set bit positions
(dg/ADT/Bitvector.h is not part of the sources; the spec describes it as a
dense/sparse bit index whose mutators report whether anything changed), and
the `std::set<Pointer> largePointers` overflow set. -/
structure SmallOffsetsPointsToSet where
  pointers : Finset ℕ
  largePointers : Finset Pointer
  deriving DecidableEq

/-- The empty SmallOffsetsPointsToSet, as default-constructed. -/
def SmallOffsetsPointsToSet.emptySet : SmallOffsetsPointsToSet := ⟨∅, ∅⟩

/-- SmallOffsetsPointsToSet::getNodeID on the explicit identity table: if the
node already has an id, return it (ids are 1-based positions in the
assignment-order list); otherwise append the node (`idVector.push_back`) and
assign `ids.size() + 1`.  `List.indexOf` of an absent element is the length,
so both branches return `indexOf + 1`. -/
def SmallOffsetsPointsToSet.getNodeID (tbl : List Target) (t : Target) :
    List Target × ℕ :=
  if t ∈ tbl then (tbl, tbl.indexOf t + 1)
  else (tbl ++ [t], tbl.length + 1)

/-- SmallOffsetsPointsToSet::getNodePosition: `(getNodeID(node) - 1) * 64`. -/
def SmallOffsetsPointsToSet.getNodePosition (tbl : List Target) (t : Target) :
    List Target × ℕ :=
  let r := SmallOffsetsPointsToSet.getNodeID tbl t
  (r.1, (r.2 - 1) * 64)

/-- SmallOffsetsPointsToSet::getPosition: node position plus 63 for an
unknown offset, plus the offset value otherwise. -/
def SmallOffsetsPointsToSet.getPosition (tbl : List Target) (t : Target)
    (off : Offset) : List Target × ℕ :=
  let r := SmallOffsetsPointsToSet.getNodePosition tbl t
  if off.isUnknown then (r.1, r.2 + 63) else (r.1, r.2 + off.offset)

/-- SmallOffsetsPointsToSet::isOffsetValid: unknown or at most 62. -/
def SmallOffsetsPointsToSet.isOffsetValid (off : Offset) : Bool :=
  off.isUnknown || off.offset ≤ 62

/-- SmallOffsetsPointsToSet::removeAny(target): unset all 64 bit positions of
the target's block and erase every overflow entry with that target; returns
whether anything changed. -/
def SmallOffsetsPointsToSet.removeAny (tbl : List Target)
    (S : SmallOffsetsPointsToSet) (t : Target) :
    List Target × SmallOffsetsPointsToSet × Bool :=
  let q := SmallOffsetsPointsToSet.getNodePosition tbl t
  let newPointers := S.pointers.filter (fun i => ¬(q.2 ≤ i ∧ i < q.2 + 64))
  let newLarge := S.largePointers.filter (fun p => p.target ≠ t)
  (q.1, ⟨newPointers, newLarge⟩,
    decide (newPointers ≠ S.pointers ∨ newLarge ≠ S.largePointers))

/-- SmallOffsetsPointsToSet::addWithUnknownOffset: `removeAny(target)` then
set the unknown-offset bit; `!pointers.set(pos)` is true iff the bit was not
previously set. -/
def SmallOffsetsPointsToSet.addWithUnknownOffset (tbl : List Target)
    (S : SmallOffsetsPointsToSet) (t : Target) :
    List Target × SmallOffsetsPointsToSet × Bool :=
  let r := SmallOffsetsPointsToSet.removeAny tbl S t
  let q := SmallOffsetsPointsToSet.getPosition r.1 t Offset.UNKNOWN
  (q.1, { r.2.1 with pointers := insert q.2 r.2.1.pointers },
    decide (q.2 ∉ r.2.1.pointers))

/-- SmallOffsetsPointsToSet::pointsTo(ptr): bit query for a valid (small or
unknown) offset, overflow-set lookup otherwise.  Like the C++ `const` method
it may still assign a fresh identity to the queried target, hence returns
the possibly extended table. -/
def SmallOffsetsPointsToSet.pointsTo (tbl : List Target)
    (S : SmallOffsetsPointsToSet) (ptr : Pointer) : List Target × Bool :=
  if SmallOffsetsPointsToSet.isOffsetValid ptr.offset then
    let q := SmallOffsetsPointsToSet.getPosition tbl ptr.target ptr.offset
    (q.1, decide (q.2 ∈ S.pointers))
  else (tbl, decide (ptr ∈ S.largePointers))

/-- SmallOffsetsPointsToSet::mayPointTo(ptr): `pointsTo(ptr) ||
pointsTo(Pointer(ptr.target, Offset::UNKNOWN))` with C++ short-circuit
evaluation of the second call. -/
def SmallOffsetsPointsToSet.mayPointTo (tbl : List Target)
    (S : SmallOffsetsPointsToSet) (ptr : Pointer) : List Target × Bool :=
  let r := SmallOffsetsPointsToSet.pointsTo tbl S ptr
  if r.2 then (r.1, true)
  else SmallOffsetsPointsToSet.pointsTo r.1 S ⟨ptr.target, Offset.UNKNOWN⟩

/-- SmallOffsetsPointsToSet::add(target, off): no-op returning false when
`has(\x7btarget, Offset::UNKNOWN\x7d)` (which goes through `count`/`pointsTo`);
otherwise dispatch on the offset: unknown goes to `addWithUnknownOffset`,
valid small offsets set a bit, large offsets are inserted into the overflow
set (`emplace(...).second` is true iff the pointer was new). -/
def SmallOffsetsPointsToSet.add (tbl : List Target)
    (S : SmallOffsetsPointsToSet) (t : Target) (off : Offset) :
    List Target × SmallOffsetsPointsToSet × Bool :=
  let h := SmallOffsetsPointsToSet.pointsTo tbl S ⟨t, Offset.UNKNOWN⟩
  if h.2 then (h.1, S, false)
  else if off.isUnknown then
    SmallOffsetsPointsToSet.addWithUnknownOffset h.1 S t
  else if SmallOffsetsPointsToSet.isOffsetValid off then
    let q := SmallOffsetsPointsToSet.getPosition h.1 t off
    (q.1, { S with pointers := insert q.2 S.pointers },
      decide (q.2 ∉ S.pointers))
  else
    (h.1, { S with largePointers := insert ⟨t, off⟩ S.largePointers },
      decide (Pointer.mk t off ∉ S.largePointers))

/-- SmallOffsetsPointsToSet::add(const Pointer&). -/
def SmallOffsetsPointsToSet.addPtr (tbl : List Target)
    (S : SmallOffsetsPointsToSet) (ptr : Pointer) :
    List Target × SmallOffsetsPointsToSet × Bool :=
  SmallOffsetsPointsToSet.add tbl S ptr.target ptr.offset

/-- SmallOffsetsPointsToSet::add(const SmallOffsetsPointsToSet&): union of
both representations; `pointers.set(S.pointers)` reports whether the
bitvector gained a bit and each `largePointers.insert(ptr).second` whether
the overflow set gained an entry.  No identity lookups happen here. -/
def SmallOffsetsPointsToSet.addSet (A B : SmallOffsetsPointsToSet) :
    SmallOffsetsPointsToSet × Bool :=
  (⟨A.pointers ∪ B.pointers, A.largePointers ∪ B.largePointers⟩,
    decide (¬ B.pointers ⊆ A.pointers) || decide (¬ B.largePointers ⊆ A.largePointers))

/-- SmallOffsetsPointsToSet::remove(const Pointer&): unset the bit for a
valid offset (reporting whether it was set), erase from the overflow set
otherwise (reporting whether it was present). -/
def SmallOffsetsPointsToSet.remove (tbl : List Target)
    (S : SmallOffsetsPointsToSet) (ptr : Pointer) :
    List Target × SmallOffsetsPointsToSet × Bool :=
  if SmallOffsetsPointsToSet.isOffsetValid ptr.offset then
    let q := SmallOffsetsPointsToSet.getPosition tbl ptr.target ptr.offset
    (q.1, { S with pointers := S.pointers.erase q.2 },
      decide (q.2 ∈ S.pointers))
  else
    (tbl, { S with largePointers := S.largePointers.erase ptr },
      decide (ptr ∈ S.largePointers))

/-- The bit-index a valid offset occupies inside a target's 64-bit block:
63 for UNKNOWN, the offset value itself for small offsets. -/
def offsetIndex (off : Offset) : ℕ :=
  if off.isUnknown then 63 else off.offset

/-- Pure membership reading of a SmallOffsetsPointsToSet under a given
identity table: a pointer with a valid offset is present iff its target is
in the table and its encoded bit position is set; a large-offset pointer is
present iff it is in the overflow set.  This is the denotation the
operations are proved against. -/
def containsB (tbl : List Target) (S : SmallOffsetsPointsToSet)
    (p : Pointer) : Bool :=
  if SmallOffsetsPointsToSet.isOffsetValid p.offset then
    decide (p.target ∈ tbl) &&
      decide (tbl.indexOf p.target * 64 + offsetIndex p.offset ∈ S.pointers)
  else decide (p ∈ S.largePointers)

/-- Well-formedness of a set with respect to the identity table: every set
bit lies in the block of an already assigned identity.  Every state reachable
through the API satisfies this, and it is what makes the bit positions of
unassigned targets read as empty. -/
def WF (tbl : List Target) (S : SmallOffsetsPointsToSet) : Prop :=
  ∀ i ∈ S.pointers, i < 64 * tbl.length

instance (tbl : List Target) (S : SmallOffsetsPointsToSet) :
    Decidable (WF tbl S) := by
  unfold WF; infer_instance

/-- The UNKNOWN-offset invariant of the spec: if the set contains
(T, UNKNOWN) it contains no finite-offset pair (T, k). -/
def InvUnknown (tbl : List Target) (S : SmallOffsetsPointsToSet) : Prop :=
  ∀ T : Target, ∀ k : ℕ, k ≠ UNKNOWN_OFFSET →
    containsB tbl S ⟨T, Offset.UNKNOWN⟩ = true →
    containsB tbl S ⟨T, ⟨k⟩⟩ = false

/-- The table produced by `getNodeID`: unchanged when the target is known,
extended by one entry otherwise. -/
def extTable (tbl : List Target) (t : Target) : List Target :=
  if t ∈ tbl then tbl else tbl ++ [t]

theorem mem_extTable {tbl : List Target} {t u : Target} :
    u ∈ extTable tbl t ↔ u ∈ tbl ∨ u = t := by
  unfold extTable; split
  · rename_i h
    exact ⟨Or.inl, fun hc => hc.elim id (fun he => he ▸ h)⟩
  · simp [List.mem_append]

theorem self_mem_extTable {tbl : List Target} {t : Target} :
    t ∈ extTable tbl t := mem_extTable.mpr (Or.inr rfl)

theorem extTable_of_mem {tbl : List Target} {t : Target} (h : t ∈ tbl) :
    extTable tbl t = tbl := if_pos h

theorem extTable_idem {tbl : List Target} {t : Target} :
    extTable (extTable tbl t) t = extTable tbl t :=
  extTable_of_mem self_mem_extTable

theorem length_le_extTable {tbl : List Target} {t : Target} :
    tbl.length ≤ (extTable tbl t).length := by
  unfold extTable; split
  · exact le_refl _
  · simp

theorem indexOf_extTable {tbl : List Target} {t u : Target}
    (h : u ∈ tbl ∨ u = t) :
    (extTable tbl t).indexOf u = tbl.indexOf u := by
  unfold extTable; split
  · rfl
  · rename_i hnt
    rcases h with hu | rfl
    · exact List.indexOf_append_of_mem hu
    · rw [List.indexOf_append_of_not_mem hnt, List.indexOf_of_not_mem hnt]
      simp

theorem indexOf_lt_length_extTable {tbl : List Target} {t u : Target}
    (h : u ∈ tbl ∨ u = t) :
    tbl.indexOf u < (extTable tbl t).length := by
  have hu : u ∈ extTable tbl t := mem_extTable.mpr h
  have hlt := List.indexOf_lt_length.mpr hu
  rwa [indexOf_extTable h] at hlt

theorem getNodeID_eq (tbl : List Target) (t : Target) :
    SmallOffsetsPointsToSet.getNodeID tbl t = (extTable tbl t, tbl.indexOf t + 1) := by
  unfold SmallOffsetsPointsToSet.getNodeID extTable; split
  · rfl
  · rename_i h; rw [List.indexOf_of_not_mem h]

theorem getNodePosition_eq (tbl : List Target) (t : Target) :
    SmallOffsetsPointsToSet.getNodePosition tbl t = (extTable tbl t, tbl.indexOf t * 64) := by
  simp [SmallOffsetsPointsToSet.getNodePosition, getNodeID_eq]

theorem getPosition_eq (tbl : List Target) (t : Target) (off : Offset) :
    SmallOffsetsPointsToSet.getPosition tbl t off =
      (extTable tbl t, tbl.indexOf t * 64 + offsetIndex off) := by
  unfold SmallOffsetsPointsToSet.getPosition offsetIndex
  rw [getNodePosition_eq]
  by_cases h : off.isUnknown <;> simp [h]

theorem offsetIndex_le_of_valid {off : Offset}
    (h : SmallOffsetsPointsToSet.isOffsetValid off = true) : offsetIndex off ≤ 63 := by
  unfold SmallOffsetsPointsToSet.isOffsetValid at h
  unfold offsetIndex
  by_cases hu : off.isUnknown <;> simp [hu] at h ⊢
  omega

theorem isOffsetValid_iff {o : Offset} :
    SmallOffsetsPointsToSet.isOffsetValid o = true ↔
      (o.offset = UNKNOWN_OFFSET ∨ o.offset ≤ 62) := by
  simp [SmallOffsetsPointsToSet.isOffsetValid, Offset.isUnknown]

theorem offsetIndex_eq {o : Offset} :
    offsetIndex o = if o.offset = UNKNOWN_OFFSET then 63 else o.offset := by
  simp [offsetIndex, Offset.isUnknown]

theorem offsetIndex_inj {o1 o2 : Offset}
    (h1 : SmallOffsetsPointsToSet.isOffsetValid o1 = true)
    (h2 : SmallOffsetsPointsToSet.isOffsetValid o2 = true)
    (he : offsetIndex o1 = offsetIndex o2) : o1 = o2 := by
  have hU : 62 < UNKNOWN_OFFSET := by norm_num [UNKNOWN_OFFSET]
  have h1' := isOffsetValid_iff.mp h1
  have h2' := isOffsetValid_iff.mp h2
  rw [offsetIndex_eq, offsetIndex_eq] at he
  rcases o1 with ⟨v1⟩; rcases o2 with ⟨v2⟩
  simp only [Offset.mk.injEq]
  dsimp only at h1' h2' he
  rcases h1' with h1' | h1' <;> rcases h2' with h2' | h2' <;>
    split_ifs at he <;> omega

theorem containsB_iff {tbl : List Target} {S : SmallOffsetsPointsToSet}
    {p : Pointer} :
    containsB tbl S p = true ↔
      ((SmallOffsetsPointsToSet.isOffsetValid p.offset = true ∧ p.target ∈ tbl ∧
          tbl.indexOf p.target * 64 + offsetIndex p.offset ∈ S.pointers) ∨
        (SmallOffsetsPointsToSet.isOffsetValid p.offset = false ∧
          p ∈ S.largePointers)) := by
  unfold containsB
  by_cases h : SmallOffsetsPointsToSet.isOffsetValid p.offset <;> simp [h]

theorem WF_of_length_le {tbl tbl2 : List Target} {S : SmallOffsetsPointsToSet}
    (h : WF tbl S) (hl : tbl.length ≤ tbl2.length) : WF tbl2 S := by
  intro i hi
  exact lt_of_lt_of_le (h i hi) (by omega)

theorem WF_extTable {tbl : List Target} {t : Target} {S : SmallOffsetsPointsToSet}
    (h : WF tbl S) : WF (extTable tbl t) S :=
  WF_of_length_le h length_le_extTable

theorem pointsTo_fst {tbl : List Target} {S : SmallOffsetsPointsToSet}
    {p : Pointer} :
    (SmallOffsetsPointsToSet.pointsTo tbl S p).1 =
      if SmallOffsetsPointsToSet.isOffsetValid p.offset then extTable tbl p.target
      else tbl := by
  unfold SmallOffsetsPointsToSet.pointsTo
  by_cases hv : SmallOffsetsPointsToSet.isOffsetValid p.offset <;>
    simp [hv, getPosition_eq]

theorem pointsTo_snd {tbl : List Target} {S : SmallOffsetsPointsToSet}
    {p : Pointer} (hWF : WF tbl S) :
    (SmallOffsetsPointsToSet.pointsTo tbl S p).2 = containsB tbl S p := by
  unfold SmallOffsetsPointsToSet.pointsTo containsB
  by_cases hv : SmallOffsetsPointsToSet.isOffsetValid p.offset <;>
    simp [hv, getPosition_eq]
  by_cases hm : p.target ∈ tbl
  · simp [hm]
  · have hidx : tbl.indexOf p.target = tbl.length := List.indexOf_of_not_mem hm
    simp only [hm, decide_False, Bool.false_and, decide_eq_false_iff_not]
    intro hmem
    have := hWF _ hmem
    omega

theorem containsB_extTable {tbl : List Target} {t : Target}
    {S : SmallOffsetsPointsToSet} {p : Pointer} (hWF : WF tbl S) :
    containsB (extTable tbl t) S p = containsB tbl S p := by
  unfold containsB
  by_cases hv : SmallOffsetsPointsToSet.isOffsetValid p.offset <;> simp [hv]
  by_cases hm : p.target ∈ tbl
  · simp [hm, mem_extTable.mpr (Or.inl hm), indexOf_extTable (Or.inl hm)]
  · by_cases ht : p.target = t
    · subst ht
      have hidx : tbl.indexOf p.target = tbl.length := List.indexOf_of_not_mem hm
      simp only [self_mem_extTable, decide_True, Bool.true_and, hm, decide_False,
        Bool.false_and, indexOf_extTable (Or.inr rfl), decide_eq_false_iff_not]
      intro hmem
      have := hWF _ hmem
      omega
    · have : p.target ∉ extTable tbl t := fun hc => (mem_extTable.mp hc).elim hm ht
      simp [hm, this]

theorem mayPointTo_snd {tbl : List Target} {S : SmallOffsetsPointsToSet}
    {p : Pointer} (hWF : WF tbl S) :
    (SmallOffsetsPointsToSet.mayPointTo tbl S p).2 =
      (containsB tbl S p || containsB tbl S ⟨p.target, Offset.UNKNOWN⟩) := by
  simp only [SmallOffsetsPointsToSet.mayPointTo]
  rw [pointsTo_snd hWF]
  by_cases h : containsB tbl S p
  · simp [h]
  · rw [if_neg (by simp [h])]
    simp only [h, Bool.false_or]
    rw [pointsTo_fst]
    by_cases hv : SmallOffsetsPointsToSet.isOffsetValid p.offset
    · rw [if_pos hv, pointsTo_snd (WF_extTable hWF), containsB_extTable hWF]
    · rw [if_neg hv, pointsTo_snd hWF]

theorem removeAny_fst {tbl : List Target} {S : SmallOffsetsPointsToSet}
    {t : Target} :
    (SmallOffsetsPointsToSet.removeAny tbl S t).1 = extTable tbl t := by
  simp [SmallOffsetsPointsToSet.removeAny, getNodePosition_eq]

theorem removeAny_pointers {tbl : List Target} {S : SmallOffsetsPointsToSet}
    {t : Target} :
    (SmallOffsetsPointsToSet.removeAny tbl S t).2.1.pointers =
      S.pointers.filter
        (fun i => ¬(tbl.indexOf t * 64 ≤ i ∧ i < tbl.indexOf t * 64 + 64)) := by
  simp [SmallOffsetsPointsToSet.removeAny, getNodePosition_eq]

theorem removeAny_large {tbl : List Target} {S : SmallOffsetsPointsToSet}
    {t : Target} :
    (SmallOffsetsPointsToSet.removeAny tbl S t).2.1.largePointers =
      S.largePointers.filter (fun p => p.target ≠ t) := by
  simp [SmallOffsetsPointsToSet.removeAny, getNodePosition_eq]

theorem containsB_removeAny {tbl : List Target} {S : SmallOffsetsPointsToSet}
    {t : Target} {p : Pointer} :
    containsB (extTable tbl t) (SmallOffsetsPointsToSet.removeAny tbl S t).2.1 p =
      (containsB tbl S p && decide (p.target ≠ t)) := by
  rw [Bool.eq_iff_iff]
  simp only [Bool.and_eq_true, decide_eq_true_eq]
  rw [containsB_iff, containsB_iff, removeAny_pointers, removeAny_large]
  constructor
  · rintro (⟨hv, hm, hmem⟩ | ⟨hv, hmem⟩)
    · rw [Finset.mem_filter] at hmem
      obtain ⟨hmemS, hrange⟩ := hmem
      have hidx := offsetIndex_le_of_valid hv
      by_cases hpt : p.target = t
      · exfalso
        subst hpt
        rw [indexOf_extTable (Or.inr rfl)] at hmemS hrange
        exact hrange ⟨by omega, by omega⟩
      · have hmt : p.target ∈ tbl := (mem_extTable.mp hm).resolve_right hpt
        rw [indexOf_extTable (Or.inl hmt)] at hmemS
        exact ⟨Or.inl ⟨hv, hmt, hmemS⟩, hpt⟩
    · rw [Finset.mem_filter] at hmem
      exact ⟨Or.inr ⟨hv, hmem.1⟩, hmem.2⟩
  · rintro ⟨(⟨hv, hm, hmem⟩ | ⟨hv, hmem⟩), hpt⟩
    · have hidx := offsetIndex_le_of_valid hv
      refine Or.inl ⟨hv, mem_extTable.mpr (Or.inl hm), ?_⟩
      rw [indexOf_extTable (Or.inl hm), Finset.mem_filter]
      refine ⟨hmem, ?_⟩
      by_cases ht : t ∈ tbl
      · have hne : tbl.indexOf p.target ≠ tbl.indexOf t :=
          fun he => hpt ((List.indexOf_inj hm ht).mp he)
        omega
      · have h1 : tbl.indexOf t = tbl.length := List.indexOf_of_not_mem ht
        have h2 : tbl.indexOf p.target < tbl.length := List.indexOf_lt_length.mpr hm
        omega
    · exact Or.inr ⟨hv, Finset.mem_filter.mpr ⟨hmem, hpt⟩⟩

theorem isOffsetValid_UNKNOWN :
    SmallOffsetsPointsToSet.isOffsetValid Offset.UNKNOWN = true := by
  simp [SmallOffsetsPointsToSet.isOffsetValid, Offset.isUnknown, Offset.UNKNOWN]

theorem isUnknown_UNKNOWN : Offset.UNKNOWN.isUnknown = true := by
  simp [Offset.isUnknown, Offset.UNKNOWN]

theorem offsetIndex_UNKNOWN : offsetIndex Offset.UNKNOWN = 63 := by
  simp [offsetIndex, isUnknown_UNKNOWN]

theorem eq_UNKNOWN_of_isUnknown {o : Offset} (h : o.isUnknown = true) :
    o = Offset.UNKNOWN := by
  rcases o with ⟨v⟩
  simp [Offset.isUnknown] at h
  simp [Offset.UNKNOWN, h]

theorem offsetIndex_eq_offset_of_not_unknown {o : Offset}
    (h : o.isUnknown = false) : offsetIndex o = o.offset := by
  simp [offsetIndex, h]

theorem containsB_insert_pos {tbl : List Target} {S : SmallOffsetsPointsToSet}
    {t : Target} {off : Offset} {p : Pointer}
    (hv : SmallOffsetsPointsToSet.isOffsetValid off = true) (htm : t ∈ tbl) :
    containsB tbl
        ⟨insert (tbl.indexOf t * 64 + offsetIndex off) S.pointers, S.largePointers⟩ p =
      (containsB tbl S p || decide (p = ⟨t, off⟩)) := by
  rw [Bool.eq_iff_iff]
  simp only [Bool.or_eq_true, decide_eq_true_eq]
  rw [containsB_iff, containsB_iff]
  constructor
  · rintro (⟨hpv, hm, hmem⟩ | ⟨hpv, hmem⟩)
    · rw [Finset.mem_insert] at hmem
      rcases hmem with heq | hmem
      · right
        have htgt : p.target = t :=
          (List.indexOf_inj hm htm).mp (by
            have h1 := offsetIndex_le_of_valid hpv
            have h2 := offsetIndex_le_of_valid hv
            omega)
        have hoff : p.offset = off := by
          apply offsetIndex_inj hpv hv
          have h1 := offsetIndex_le_of_valid hpv
          have h2 := offsetIndex_le_of_valid hv
          omega
        rcases p with ⟨pt, po⟩
        simp only at htgt hoff
        rw [htgt, hoff]
      · exact Or.inl (Or.inl ⟨hpv, hm, hmem⟩)
    · exact Or.inl (Or.inr ⟨hpv, hmem⟩)
  · rintro ((⟨hpv, hm, hmem⟩ | ⟨hpv, hmem⟩) | heq)
    · exact Or.inl ⟨hpv, hm, Finset.mem_insert_of_mem hmem⟩
    · exact Or.inr ⟨hpv, hmem⟩
    · subst heq
      exact Or.inl ⟨hv, htm, Finset.mem_insert_self _ _⟩

theorem containsB_erase_pos {tbl : List Target} {S : SmallOffsetsPointsToSet}
    {t : Target} {off : Offset} {p : Pointer}
    (hv : SmallOffsetsPointsToSet.isOffsetValid off = true) (htm : t ∈ tbl) :
    containsB tbl
        ⟨S.pointers.erase (tbl.indexOf t * 64 + offsetIndex off), S.largePointers⟩ p =
      (containsB tbl S p && !decide (p = ⟨t, off⟩)) := by
  rw [Bool.eq_iff_iff]
  simp only [Bool.and_eq_true, Bool.not_eq_true', decide_eq_false_iff_not]
  rw [containsB_iff, containsB_iff]
  constructor
  · rintro (⟨hpv, hm, hmem⟩ | ⟨hpv, hmem⟩)
    · rw [Finset.mem_erase] at hmem
      refine ⟨Or.inl ⟨hpv, hm, hmem.2⟩, ?_⟩
      rintro rfl
      exact hmem.1 rfl
    · refine ⟨Or.inr ⟨hpv, hmem⟩, ?_⟩
      rintro rfl
      rw [hv] at hpv
      exact absurd hpv (by simp)
  · rintro ⟨(⟨hpv, hm, hmem⟩ | ⟨hpv, hmem⟩), hne⟩
    · refine Or.inl ⟨hpv, hm, Finset.mem_erase.mpr ⟨?_, hmem⟩⟩
      intro heq
      apply hne
      have htgt : p.target = t :=
        (List.indexOf_inj hm htm).mp (by
          have h1 := offsetIndex_le_of_valid hpv
          have h2 := offsetIndex_le_of_valid hv
          omega)
      have hoff : p.offset = off := by
        apply offsetIndex_inj hpv hv
        have h1 := offsetIndex_le_of_valid hpv
        have h2 := offsetIndex_le_of_valid hv
        omega
      rcases p with ⟨pt, po⟩
      simp only at htgt hoff
      rw [htgt, hoff]
    · exact Or.inr ⟨hpv, hmem⟩

theorem containsB_insert_large {tbl : List Target} {S : SmallOffsetsPointsToSet}
    {ptr p : Pointer}
    (hv : SmallOffsetsPointsToSet.isOffsetValid ptr.offset = false) :
    containsB tbl ⟨S.pointers, insert ptr S.largePointers⟩ p =
      (containsB tbl S p || decide (p = ptr)) := by
  rw [Bool.eq_iff_iff]
  simp only [Bool.or_eq_true, decide_eq_true_eq]
  rw [containsB_iff, containsB_iff]
  constructor
  · rintro (⟨hpv, hm, hmem⟩ | ⟨hpv, hmem⟩)
    · exact Or.inl (Or.inl ⟨hpv, hm, hmem⟩)
    · rw [Finset.mem_insert] at hmem
      rcases hmem with heq | hmem
      · exact Or.inr heq
      · exact Or.inl (Or.inr ⟨hpv, hmem⟩)
  · rintro ((⟨hpv, hm, hmem⟩ | ⟨hpv, hmem⟩) | heq)
    · exact Or.inl ⟨hpv, hm, hmem⟩
    · exact Or.inr ⟨hpv, Finset.mem_insert_of_mem hmem⟩
    · subst heq
      exact Or.inr ⟨hv, Finset.mem_insert_self _ _⟩

theorem containsB_erase_large {tbl : List Target} {S : SmallOffsetsPointsToSet}
    {ptr p : Pointer}
    (hv : SmallOffsetsPointsToSet.isOffsetValid ptr.offset = false) :
    containsB tbl ⟨S.pointers, S.largePointers.erase ptr⟩ p =
      (containsB tbl S p && !decide (p = ptr)) := by
  rw [Bool.eq_iff_iff]
  simp only [Bool.and_eq_true, Bool.not_eq_true', decide_eq_false_iff_not]
  rw [containsB_iff, containsB_iff]
  constructor
  · rintro (⟨hpv, hm, hmem⟩ | ⟨hpv, hmem⟩)
    · refine ⟨Or.inl ⟨hpv, hm, hmem⟩, ?_⟩
      rintro rfl
      rw [hv] at hpv
      exact absurd hpv (by simp)
    · rw [Finset.mem_erase] at hmem
      exact ⟨Or.inr ⟨hpv, hmem.2⟩, hmem.1⟩
  · rintro ⟨(⟨hpv, hm, hmem⟩ | ⟨hpv, hmem⟩), hne⟩
    · exact Or.inl ⟨hpv, hm, hmem⟩
    · exact Or.inr ⟨hpv, Finset.mem_erase.mpr ⟨hne, hmem⟩⟩

theorem addWithUnknownOffset_eq {tbl : List Target}
    {S : SmallOffsetsPointsToSet} {t : Target} :
    SmallOffsetsPointsToSet.addWithUnknownOffset tbl S t =
      (extTable tbl t,
        ⟨insert (tbl.indexOf t * 64 + 63)
            (SmallOffsetsPointsToSet.removeAny tbl S t).2.1.pointers,
          (SmallOffsetsPointsToSet.removeAny tbl S t).2.1.largePointers⟩,
        decide (tbl.indexOf t * 64 + 63 ∉
          (SmallOffsetsPointsToSet.removeAny tbl S t).2.1.pointers)) := by
  simp only [SmallOffsetsPointsToSet.addWithUnknownOffset, removeAny_fst,
    getPosition_eq, extTable_idem, indexOf_extTable (Or.inr rfl),
    offsetIndex_UNKNOWN]

theorem addWithUnknownOffset_ret {tbl : List Target}
    {S : SmallOffsetsPointsToSet} {t : Target} :
    (SmallOffsetsPointsToSet.addWithUnknownOffset tbl S t).2.2 = true := by
  rw [addWithUnknownOffset_eq]
  simp only [removeAny_pointers, decide_eq_true_eq]
  intro hmem
  rw [Finset.mem_filter] at hmem
  exact hmem.2 ⟨by omega, by omega⟩

theorem containsB_addWithUnknownOffset {tbl : List Target}
    {S : SmallOffsetsPointsToSet} {t : Target} {p : Pointer} :
    containsB (extTable tbl t)
        (SmallOffsetsPointsToSet.addWithUnknownOffset tbl S t).2.1 p =
      ((containsB tbl S p && decide (p.target ≠ t)) ||
        decide (p = ⟨t, Offset.UNKNOWN⟩)) := by
  rw [addWithUnknownOffset_eq]
  have hpos : tbl.indexOf t * 64 + 63 =
      (extTable tbl t).indexOf t * 64 + offsetIndex Offset.UNKNOWN := by
    rw [indexOf_extTable (Or.inr rfl), offsetIndex_UNKNOWN]
  rw [hpos, containsB_insert_pos isOffsetValid_UNKNOWN self_mem_extTable,
    containsB_removeAny]

theorem remove_fst {tbl : List Target} {S : SmallOffsetsPointsToSet}
    {ptr : Pointer} :
    (SmallOffsetsPointsToSet.remove tbl S ptr).1 =
      if SmallOffsetsPointsToSet.isOffsetValid ptr.offset then
        extTable tbl ptr.target
      else tbl := by
  unfold SmallOffsetsPointsToSet.remove
  by_cases hv : SmallOffsetsPointsToSet.isOffsetValid ptr.offset <;>
    simp [hv, getPosition_eq]

theorem containsB_remove {tbl : List Target} {S : SmallOffsetsPointsToSet}
    {ptr p : Pointer} (hWF : WF tbl S) :
    containsB (SmallOffsetsPointsToSet.remove tbl S ptr).1
        (SmallOffsetsPointsToSet.remove tbl S ptr).2.1 p =
      (containsB tbl S p && !decide (p = ptr)) := by
  unfold SmallOffsetsPointsToSet.remove
  by_cases hv : SmallOffsetsPointsToSet.isOffsetValid ptr.offset
  · simp only [hv, if_true, getPosition_eq]
    have hpos : tbl.indexOf ptr.target * 64 + offsetIndex ptr.offset =
        (extTable tbl ptr.target).indexOf ptr.target * 64 + offsetIndex ptr.offset := by
      rw [indexOf_extTable (Or.inr rfl)]
    rw [hpos]
    have := @containsB_erase_pos (extTable tbl ptr.target)
      S ptr.target ptr.offset p hv self_mem_extTable
    rw [show (⟨ptr.target, ptr.offset⟩ : Pointer) = ptr from rfl] at this
    rw [this, containsB_extTable hWF]
  · simp only [hv, if_false, Bool.false_eq_true]
    exact containsB_erase_large (by simpa using hv)

theorem add_noop {tbl : List Target} {S : SmallOffsetsPointsToSet}
    {t : Target} {off : Offset} (hWF : WF tbl S)
    (h : containsB tbl S ⟨t, Offset.UNKNOWN⟩ = true) :
    SmallOffsetsPointsToSet.add tbl S t off = (extTable tbl t, S, false) := by
  simp only [SmallOffsetsPointsToSet.add]
  rw [pointsTo_snd hWF, h]
  simp [pointsTo_fst, isOffsetValid_UNKNOWN]

set_option maxHeartbeats 1000000 in
theorem add_fst {tbl : List Target} {S : SmallOffsetsPointsToSet}
    {t : Target} {off : Offset} (hWF : WF tbl S) :
    (SmallOffsetsPointsToSet.add tbl S t off).1 = extTable tbl t := by
  simp only [SmallOffsetsPointsToSet.add, getPosition_eq]
  rw [pointsTo_snd hWF, pointsTo_fst]
  simp only [isOffsetValid_UNKNOWN, if_true]
  split_ifs with h1 h2 h3
  · rfl
  · rw [addWithUnknownOffset_eq, extTable_idem]
  · rw [extTable_idem]
  · rfl
theorem containsB_add_unknown {tbl : List Target} {S : SmallOffsetsPointsToSet}
    {t : Target} {off : Offset} {p : Pointer} (hWF : WF tbl S)
    (h : containsB tbl S ⟨t, Offset.UNKNOWN⟩ = false) (ho : off.isUnknown = true) :
    containsB (SmallOffsetsPointsToSet.add tbl S t off).1
        (SmallOffsetsPointsToSet.add tbl S t off).2.1 p =
      ((containsB tbl S p && decide (p.target ≠ t)) ||
        decide (p = ⟨t, Offset.UNKNOWN⟩)) := by
  simp only [SmallOffsetsPointsToSet.add]
  rw [pointsTo_snd hWF, h, pointsTo_fst]
  simp only [isOffsetValid_UNKNOWN, if_true]
  rw [if_neg (by simp), if_pos ho]
  have hstep := @containsB_addWithUnknownOffset (extTable tbl t) S t p
  rw [addWithUnknownOffset_eq] at hstep ⊢
  rw [extTable_idem] at hstep ⊢
  dsimp only at hstep ⊢
  rw [hstep, containsB_extTable hWF]

theorem containsB_add_small {tbl : List Target} {S : SmallOffsetsPointsToSet}
    {t : Target} {off : Offset} {p : Pointer} (hWF : WF tbl S)
    (h : containsB tbl S ⟨t, Offset.UNKNOWN⟩ = false) (ho : off.isUnknown = false)
    (hv : SmallOffsetsPointsToSet.isOffsetValid off = true) :
    containsB (SmallOffsetsPointsToSet.add tbl S t off).1
        (SmallOffsetsPointsToSet.add tbl S t off).2.1 p =
      (containsB tbl S p || decide (p = ⟨t, off⟩)) := by
  simp only [SmallOffsetsPointsToSet.add, getPosition_eq]
  rw [pointsTo_snd hWF, h, pointsTo_fst]
  simp only [isOffsetValid_UNKNOWN, if_true]
  rw [if_neg (by simp), if_neg (by simp [ho]), if_pos hv]
  dsimp only
  rw [extTable_idem, containsB_insert_pos hv self_mem_extTable,
    containsB_extTable hWF]

theorem containsB_add_large {tbl : List Target} {S : SmallOffsetsPointsToSet}
    {t : Target} {off : Offset} {p : Pointer} (hWF : WF tbl S)
    (h : containsB tbl S ⟨t, Offset.UNKNOWN⟩ = false) (ho : off.isUnknown = false)
    (hv : SmallOffsetsPointsToSet.isOffsetValid off = false) :
    containsB (SmallOffsetsPointsToSet.add tbl S t off).1
        (SmallOffsetsPointsToSet.add tbl S t off).2.1 p =
      (containsB tbl S p || decide (p = ⟨t, off⟩)) := by
  simp only [SmallOffsetsPointsToSet.add]
  rw [pointsTo_snd hWF, h, pointsTo_fst]
  simp only [isOffsetValid_UNKNOWN, if_true]
  rw [if_neg (by simp), if_neg (by simp [ho]), if_neg (by simp [hv])]
  dsimp only
  rw [containsB_insert_large (by simpa using hv), containsB_extTable hWF]

theorem add_ret {tbl : List Target} {S : SmallOffsetsPointsToSet}
    {t : Target} {off : Offset} (hWF : WF tbl S) :
    (SmallOffsetsPointsToSet.add tbl S t off).2.2 =
      !(SmallOffsetsPointsToSet.mayPointTo tbl S ⟨t, off⟩).2 := by
  rw [mayPointTo_snd hWF]
  dsimp only
  simp only [SmallOffsetsPointsToSet.add, getPosition_eq]
  rw [pointsTo_snd hWF, pointsTo_fst]
  simp only [isOffsetValid_UNKNOWN, if_true]
  by_cases h : containsB tbl S ⟨t, Offset.UNKNOWN⟩ = true
  · rw [if_pos h, h]
    simp
  · have hfalse : containsB tbl S ⟨t, Offset.UNKNOWN⟩ = false := by
      revert h; cases containsB tbl S ⟨t, Offset.UNKNOWN⟩ <;> simp
    rw [if_neg h, hfalse]
    simp only [Bool.or_false]
    by_cases ho : off.isUnknown
    · rw [if_pos ho, addWithUnknownOffset_ret]
      have hpe : (⟨t, off⟩ : Pointer) = ⟨t, Offset.UNKNOWN⟩ := by
        rw [eq_UNKNOWN_of_isUnknown ho]
      rw [hpe, hfalse]
      rfl
    · by_cases hv : SmallOffsetsPointsToSet.isOffsetValid off
      · rw [if_neg (by simp [ho]), if_pos hv]
        dsimp only
        rw [indexOf_extTable (Or.inr rfl)]
        unfold containsB
        dsimp only
        rw [if_pos hv]
        by_cases hm : t ∈ tbl
        · simp [hm]
        · have h2 : tbl.indexOf t = tbl.length := List.indexOf_of_not_mem hm
          have hnm : tbl.length * 64 + offsetIndex off ∉ S.pointers := by
            intro hmem
            have h1 := hWF _ hmem
            omega
          simp [hm, h2, hnm]
      · rw [if_neg (by simp [ho]), if_neg (by simp [hv])]
        dsimp only
        unfold containsB
        dsimp only
        rw [if_neg (by simp [hv])]
        simp

theorem containsB_addSet {tbl : List Target} {A B : SmallOffsetsPointsToSet}
    {p : Pointer} :
    containsB tbl (SmallOffsetsPointsToSet.addSet A B).1 p =
      (containsB tbl A p || containsB tbl B p) := by
  rw [Bool.eq_iff_iff]
  simp only [Bool.or_eq_true]
  rw [containsB_iff, containsB_iff, containsB_iff]
  simp only [SmallOffsetsPointsToSet.addSet]
  simp only [Finset.mem_union]
  tauto

theorem WF_subset_pointers {tbl : List Target} {S S2 : SmallOffsetsPointsToSet}
    (h : S2.pointers ⊆ S.pointers) (hWF : WF tbl S) : WF tbl S2 :=
  fun i hi => hWF i (h hi)

theorem WF_removeAny {tbl : List Target} {S : SmallOffsetsPointsToSet}
    {t : Target} (hWF : WF tbl S) :
    WF (SmallOffsetsPointsToSet.removeAny tbl S t).1
      (SmallOffsetsPointsToSet.removeAny tbl S t).2.1 := by
  rw [removeAny_fst]
  refine WF_subset_pointers ?_ (WF_extTable hWF)
  rw [removeAny_pointers]
  exact Finset.filter_subset _ _

theorem WF_addWithUnknownOffset {tbl : List Target} {S : SmallOffsetsPointsToSet}
    {t : Target} (hWF : WF tbl S) :
    WF (SmallOffsetsPointsToSet.addWithUnknownOffset tbl S t).1
      (SmallOffsetsPointsToSet.addWithUnknownOffset tbl S t).2.1 := by
  rw [addWithUnknownOffset_eq]
  dsimp only
  intro i hi
  rcases Finset.mem_insert.mp hi with rfl | hi
  · have hlt : tbl.indexOf t < (extTable tbl t).length :=
      indexOf_lt_length_extTable (Or.inr rfl)
    omega
  · rw [removeAny_pointers] at hi
    exact WF_extTable hWF i (Finset.filter_subset _ _ hi)

theorem WF_remove {tbl : List Target} {S : SmallOffsetsPointsToSet}
    {ptr : Pointer} (hWF : WF tbl S) :
    WF (SmallOffsetsPointsToSet.remove tbl S ptr).1
      (SmallOffsetsPointsToSet.remove tbl S ptr).2.1 := by
  unfold SmallOffsetsPointsToSet.remove
  by_cases hv : SmallOffsetsPointsToSet.isOffsetValid ptr.offset
  · simp only [hv, if_true, getPosition_eq]
    exact WF_subset_pointers (Finset.erase_subset _ _) (WF_extTable hWF)
  · simp only [hv, Bool.false_eq_true, if_false]
    exact hWF

theorem WF_add {tbl : List Target} {S : SmallOffsetsPointsToSet}
    {t : Target} {off : Offset} (hWF : WF tbl S) :
    WF (SmallOffsetsPointsToSet.add tbl S t off).1
      (SmallOffsetsPointsToSet.add tbl S t off).2.1 := by
  simp only [SmallOffsetsPointsToSet.add, getPosition_eq]
  rw [pointsTo_snd hWF, pointsTo_fst]
  simp only [isOffsetValid_UNKNOWN, if_true]
  split_ifs with h1 h2 h3
  · dsimp only
    exact WF_extTable hWF
  · exact WF_addWithUnknownOffset (WF_extTable hWF)
  · rw [extTable_idem]
    intro i hi
    rcases Finset.mem_insert.mp hi with rfl | hi
    · have h4 : (extTable tbl t).indexOf t < (extTable tbl t).length :=
        List.indexOf_lt_length.mpr self_mem_extTable
      have h5 : offsetIndex off ≤ 63 := offsetIndex_le_of_valid h3
      show List.indexOf t (extTable tbl t) * 64 + offsetIndex off <
        64 * (extTable tbl t).length
      omega
    · exact WF_extTable hWF i hi
  · exact WF_extTable hWF

theorem WF_addSet {tbl : List Target} {A B : SmallOffsetsPointsToSet}
    (hA : WF tbl A) (hB : WF tbl B) :
    WF tbl (SmallOffsetsPointsToSet.addSet A B).1 := by
  intro i hi
  simp only [SmallOffsetsPointsToSet.addSet] at hi
  rcases Finset.mem_union.mp hi with h | h
  · exact hA i h
  · exact hB i h

/-- C10: Offset addition (`Offset::operator+` in AnalysisGeneric.h) is total
wrapping 64-bit arithmetic: if either operand is UNKNOWN the result is
UNKNOWN; for finite operands the result value is the sum modulo 2^64, and
the result is UNKNOWN exactly when that wrapped value equals 2^64 - 1, so
the sum of two finite offsets can be UNKNOWN. -/
theorem C10_offset_add_wrapping (a b : Offset) :
    ((a.offset = UNKNOWN_OFFSET ∨ b.offset = UNKNOWN_OFFSET) →
      (a.addOp b).isUnknown = true) ∧
    (a.offset < 2 ^ 64 → b.offset < 2 ^ 64 →
      a.offset ≠ UNKNOWN_OFFSET → b.offset ≠ UNKNOWN_OFFSET →
      (a.addOp b).offset = (a.offset + b.offset) % 2 ^ 64 ∧
        ((a.addOp b).isUnknown = true ↔
          (a.offset + b.offset) % 2 ^ 64 = 2 ^ 64 - 1)) := by
  constructor
  · intro h
    rw [Offset.addOp, if_pos h]
    exact isUnknown_UNKNOWN
  · intro _ _ hfa hfb
    rw [Offset.addOp, if_neg (by tauto)]
    refine ⟨rfl, ?_⟩
    simp [Offset.isUnknown, UNKNOWN_OFFSET]

/-- Witness for C10 at a = 2^63 and b = 2^63 - 1: both operands are finite,
yet the wrapped sum is 2^64 - 1, so the result is UNKNOWN. -/
theorem C10_offset_add_wrapping_witness :
    ((2 ^ 63 : ℕ) < 2 ^ 64 ∧ (2 ^ 63 - 1 : ℕ) < 2 ^ 64 ∧
      (2 ^ 63 : ℕ) ≠ UNKNOWN_OFFSET ∧ (2 ^ 63 - 1 : ℕ) ≠ UNKNOWN_OFFSET) ∧
    ((Offset.mk (2 ^ 63)).addOp ⟨2 ^ 63 - 1⟩).offset =
        ((2 ^ 63) + (2 ^ 63 - 1)) % 2 ^ 64 ∧
      (((Offset.mk (2 ^ 63)).addOp ⟨2 ^ 63 - 1⟩).isUnknown = true ↔
        ((2 ^ 63) + (2 ^ 63 - 1)) % 2 ^ 64 = 2 ^ 64 - 1) :=
  ⟨⟨by norm_num [UNKNOWN_OFFSET], by norm_num [UNKNOWN_OFFSET],
      by norm_num [UNKNOWN_OFFSET], by norm_num [UNKNOWN_OFFSET]⟩,
    (C10_offset_add_wrapping ⟨2 ^ 63⟩ ⟨2 ^ 63 - 1⟩).2
      (by norm_num) (by norm_num)
      (by norm_num [UNKNOWN_OFFSET]) (by norm_num [UNKNOWN_OFFSET])⟩

/-- C7: constructing a ReachingDefinitionsAnalysis succeeds exactly when the
graph root is non-null and maxSetSize is positive; a null root or a zero
maxSetSize makes construction fail with a fatal assertion error. -/
theorem C7_constructor_preconditions (g : ReachingDefinitionsGraph)
    (opts : ReachingDefinitionsAnalysisOptions) :
    ((∃ a, ReachingDefinitionsAnalysis.construct g opts = Except.ok a) ↔
      (g.root ≠ none ∧ 0 < opts.maxSetSize)) ∧
    ((g.root = none ∨ opts.maxSetSize = 0) →
      ∃ msg, ReachingDefinitionsAnalysis.construct g opts = Except.error msg) := by
  unfold ReachingDefinitionsAnalysis.construct
  rcases g with ⟨root⟩
  cases root <;> by_cases h : 0 < opts.maxSetSize <;> simp_all

/-- Witness for C7: a null root with a positive maxSetSize yields a fatal
construction error. -/
theorem C7_constructor_preconditions_witness :
    (((⟨none⟩ : ReachingDefinitionsGraph).root = none ∨
        (⟨2⟩ : ReachingDefinitionsAnalysisOptions).maxSetSize = 0)) ∧
    (∃ msg, ReachingDefinitionsAnalysis.construct ⟨none⟩ ⟨2⟩ = Except.error msg) :=
  ⟨Or.inl rfl, (C7_constructor_preconditions ⟨none⟩ ⟨2⟩).2 (Or.inl rfl)⟩

/-- C3 (code bug): the const overload of RDNode::getOverwrites (line 103)
returns the `defs` member instead of `overwrites`: after addOverwrites(ds)
the const overload does not contain ds (while the non-const overload does),
and a site added only through weak addDef appears in the const overload. -/
theorem C3_const_getOverwrites_returns_defs :
    ((⟨0, ⟨0⟩, ⟨4⟩⟩ : DefSite) ∉
        ((RDNode.mkNode RDNodeType.STORE).addOverwrites
          ⟨0, ⟨0⟩, ⟨4⟩⟩).getOverwritesConst) ∧
    ((⟨0, ⟨0⟩, ⟨4⟩⟩ : DefSite) ∈
        ((RDNode.mkNode RDNodeType.STORE).addOverwrites
          ⟨0, ⟨0⟩, ⟨4⟩⟩).getOverwrites) ∧
    ((⟨1, ⟨8⟩, ⟨4⟩⟩ : DefSite) ∈
        ((RDNode.mkNode RDNodeType.STORE).addDef
          ⟨1, ⟨8⟩, ⟨4⟩⟩ false).getOverwritesConst) := by
  refine ⟨?_, ?_, ?_⟩ <;>
    simp [RDNode.mkNode, RDNode.addOverwrites, RDNode.addDef,
      RDNode.getOverwrites, RDNode.getOverwritesConst]

/-- C2 counterexample: a node whose overwrites collection holds a site for
target 0 but whose defs collection is empty; the claim says defines(0,
UNKNOWN) is true because the site is in either collection, but the code
scans only defs for an unknown offset and returns false. -/
theorem C2_counterexample :
    RDNode.defines ⟨RDNodeType.STORE, ∅, {⟨0, ⟨0⟩, ⟨4⟩⟩}, ∅⟩ 0 Offset.UNKNOWN = false ∧
    RDNode.coversClaim ⟨RDNodeType.STORE, ∅, {⟨0, ⟨0⟩, ⟨4⟩⟩}, ∅⟩ 0 Offset.UNKNOWN = true := by
  constructor
  · simp [RDNode.defines, isUnknown_UNKNOWN]
  · simp [RDNode.coversClaim, isUnknown_UNKNOWN]

/-- C2 (amended): defines(target, o) returns true iff the pair is covered,
where for o = UNKNOWN only the defs collection is consulted (a site with
that target), and for finite o a site with that target in defs or
overwrites whose byte range contains o. -/
theorem C2_defines_characterization (n : RDNode) (target : Target)
    (off : Offset) :
    RDNode.defines n target off = true ↔
      ((off.isUnknown = true ∧ ∃ ds ∈ n.defs, ds.target = target) ∨
        (off.isUnknown = false ∧ ∃ ds ∈ n.defs ∪ n.overwrites,
          ds.target = target ∧
            off.inRange ds.offset.offset
              ((ds.offset.offset + ds.len.offset) % 2 ^ 64) = true)) := by
  unfold RDNode.defines
  by_cases h : off.isUnknown
  · simp [h]
  · have hf : off.isUnknown = false := Bool.eq_false_iff.mpr h
    simp only [hf, Bool.false_eq_true, if_false, Bool.or_eq_true,
      decide_eq_true_eq, false_and, false_or, true_and, Finset.mem_union]
    constructor
    · rintro (⟨ds, hds, hp⟩ | ⟨ds, hds, hp⟩)
      · exact ⟨ds, Or.inl hds, hp⟩
      · exact ⟨ds, Or.inr hds, hp⟩
    · rintro ⟨ds, hds | hds, hp⟩
      · exact Or.inl ⟨ds, hds, hp⟩
      · exact Or.inr ⟨ds, hds, hp⟩

/-- C8: target identities are assigned lazily: the first reference of an
unknown target appends it to the identity table and assigns the next
integer identity (table length + 1, so identities start at 1 and increase
monotonically); identities of already known targets are stable under later
assignments (never reused), and the table maps identity i back to the
target assigned i (entry i - 1 is that target). -/
theorem C8_lazy_identity_assignment (tbl : List Target) (t : Target)
    (h : t ∉ tbl) :
    (SmallOffsetsPointsToSet.getNodeID tbl t).2 = tbl.length + 1 ∧
    (SmallOffsetsPointsToSet.getNodeID tbl t).1 = tbl ++ [t] ∧
    (∀ u ∈ tbl,
      (SmallOffsetsPointsToSet.getNodeID
          (SmallOffsetsPointsToSet.getNodeID tbl t).1 u).2 =
        (SmallOffsetsPointsToSet.getNodeID tbl u).2 ∧
      (SmallOffsetsPointsToSet.getNodeID
          (SmallOffsetsPointsToSet.getNodeID tbl t).1 u).1 =
        (SmallOffsetsPointsToSet.getNodeID tbl t).1) ∧
    ((SmallOffsetsPointsToSet.getNodeID tbl t).1)[
        (SmallOffsetsPointsToSet.getNodeID tbl t).2 - 1]? = some t ∧
    (∀ u ∈ tbl,
      ((SmallOffsetsPointsToSet.getNodeID tbl u).1)[
        (SmallOffsetsPointsToSet.getNodeID tbl u).2 - 1]? = some u) := by
  have hext : extTable tbl t = tbl ++ [t] := if_neg h
  have hidx : tbl.indexOf t = tbl.length := List.indexOf_of_not_mem h
  simp only [getNodeID_eq, hext, hidx]
  refine ⟨trivial, trivial, ?_, ?_, ?_⟩
  · intro u hu
    have hu2 : u ∈ tbl ++ [t] := List.mem_append_left _ hu
    rw [extTable_of_mem hu2, List.indexOf_append_of_mem hu]
    exact ⟨rfl, rfl⟩
  · rw [Nat.add_sub_cancel, List.getElem?_append_right (le_refl _)]
    simp
  · intro u hu
    rw [extTable_of_mem hu, Nat.add_sub_cancel]
    exact List.getElem?_indexOf hu

/-- Witness for C8 at the table [5] and the fresh target 7. -/
theorem C8_lazy_identity_assignment_witness :
    (7 : Target) ∉ [(5 : Target)] ∧
    (SmallOffsetsPointsToSet.getNodeID [5] 7).2 = 2 :=
  ⟨by decide, (C8_lazy_identity_assignment [5] 7 (by decide)).1⟩

/-- A finite-offset pointer is never equal to an unknown-offset pointer. -/
theorem pointer_finite_ne_unknown {T t : Target} {k : ℕ}
    (hk : k ≠ UNKNOWN_OFFSET) :
    (⟨T, ⟨k⟩⟩ : Pointer) ≠ ⟨t, Offset.UNKNOWN⟩ := by
  intro he
  apply hk
  have h2 := congrArg (fun q : Pointer => q.offset.offset) he
  simpa [Offset.UNKNOWN] using h2

/-- C9: remove(Pointer(T, UNKNOWN)) removes only the (T, UNKNOWN) entry:
afterwards pointsTo((T, UNKNOWN)) is false, every finite-offset query
(T, k) answers as before, and queries for any other target are unchanged. -/
theorem C9_remove_unknown_frame (tbl : List Target)
    (S : SmallOffsetsPointsToSet) (T : Target) (hWF : WF tbl S) :
    (SmallOffsetsPointsToSet.pointsTo
        (SmallOffsetsPointsToSet.remove tbl S ⟨T, Offset.UNKNOWN⟩).1
        (SmallOffsetsPointsToSet.remove tbl S ⟨T, Offset.UNKNOWN⟩).2.1
        ⟨T, Offset.UNKNOWN⟩).2 = false ∧
    (∀ k : ℕ, k ≠ UNKNOWN_OFFSET →
      (SmallOffsetsPointsToSet.pointsTo
          (SmallOffsetsPointsToSet.remove tbl S ⟨T, Offset.UNKNOWN⟩).1
          (SmallOffsetsPointsToSet.remove tbl S ⟨T, Offset.UNKNOWN⟩).2.1
          ⟨T, ⟨k⟩⟩).2 =
        (SmallOffsetsPointsToSet.pointsTo tbl S ⟨T, ⟨k⟩⟩).2) ∧
    (∀ p : Pointer, p.target ≠ T →
      (SmallOffsetsPointsToSet.pointsTo
          (SmallOffsetsPointsToSet.remove tbl S ⟨T, Offset.UNKNOWN⟩).1
          (SmallOffsetsPointsToSet.remove tbl S ⟨T, Offset.UNKNOWN⟩).2.1
          p).2 =
        (SmallOffsetsPointsToSet.pointsTo tbl S p).2) := by
  have hWF2 := @WF_remove tbl S ⟨T, Offset.UNKNOWN⟩ hWF
  refine ⟨?_, ?_, ?_⟩
  · rw [pointsTo_snd hWF2, containsB_remove hWF]
    simp
  · intro k hk
    rw [pointsTo_snd hWF2, containsB_remove hWF, pointsTo_snd hWF]
    simp [pointer_finite_ne_unknown hk]
  · intro p hp
    rw [pointsTo_snd hWF2, containsB_remove hWF, pointsTo_snd hWF]
    have hne : p ≠ ⟨T, Offset.UNKNOWN⟩ := by
      intro he
      exact hp (congrArg Pointer.target he)
    simp [hne]

/-- Witness for C9 at the table [0], the state with bits 5 (target 0,
offset 5) and 63 (target 0, UNKNOWN) set, and target 0. -/
theorem C9_remove_unknown_frame_witness :
    WF [0] ⟨{5, 63}, ∅⟩ ∧
    (SmallOffsetsPointsToSet.pointsTo
        (SmallOffsetsPointsToSet.remove [0] ⟨{5, 63}, ∅⟩ ⟨0, Offset.UNKNOWN⟩).1
        (SmallOffsetsPointsToSet.remove [0] ⟨{5, 63}, ∅⟩ ⟨0, Offset.UNKNOWN⟩).2.1
        ⟨0, Offset.UNKNOWN⟩).2 = false :=
  ⟨by decide, (C9_remove_unknown_frame [0] ⟨{5, 63}, ∅⟩ 0 (by decide)).1⟩

/-- C5 (amended): add(p) followed by pointsTo(p) returns true provided that,
when p has a finite offset, the set does not already hold (p.target,
UNKNOWN) — in that case the add is a no-op and pointsTo(p) stays false;
and remove(p) after add(p) restores pointsTo(p) to false. -/
theorem C5_add_pointsTo_remove (tbl : List Target)
    (S : SmallOffsetsPointsToSet) (p : Pointer) (hWF : WF tbl S)
    (h : p.offset.isUnknown = false →
      containsB tbl S ⟨p.target, Offset.UNKNOWN⟩ = false) :
    (SmallOffsetsPointsToSet.pointsTo
        (SmallOffsetsPointsToSet.addPtr tbl S p).1
        (SmallOffsetsPointsToSet.addPtr tbl S p).2.1 p).2 = true ∧
    (SmallOffsetsPointsToSet.pointsTo
        (SmallOffsetsPointsToSet.remove
          (SmallOffsetsPointsToSet.addPtr tbl S p).1
          (SmallOffsetsPointsToSet.addPtr tbl S p).2.1 p).1
        (SmallOffsetsPointsToSet.remove
          (SmallOffsetsPointsToSet.addPtr tbl S p).1
          (SmallOffsetsPointsToSet.addPtr tbl S p).2.1 p).2.1 p).2 = false := by
  unfold SmallOffsetsPointsToSet.addPtr
  have hWF1 := @WF_add tbl S p.target p.offset hWF
  constructor
  · rw [pointsTo_snd hWF1]
    by_cases hunk : containsB tbl S ⟨p.target, Offset.UNKNOWN⟩ = true
    · by_cases ho : p.offset.isUnknown
      · have hpeq : p = ⟨p.target, Offset.UNKNOWN⟩ := by
          rw [← eq_UNKNOWN_of_isUnknown ho]
        rw [add_noop hWF hunk]
        dsimp only
        rw [containsB_extTable hWF, hpeq, hunk]
      · rw [h (Bool.eq_false_iff.mpr ho)] at hunk
        exact absurd hunk (by simp)
    · have hfalse : containsB tbl S ⟨p.target, Offset.UNKNOWN⟩ = false :=
        Bool.eq_false_iff.mpr hunk
      by_cases ho : p.offset.isUnknown
      · have hpeq : p = ⟨p.target, Offset.UNKNOWN⟩ := by
          rw [← eq_UNKNOWN_of_isUnknown ho]
        rw [containsB_add_unknown hWF hfalse ho, hpeq]
        simp
      · have hof : p.offset.isUnknown = false := Bool.eq_false_iff.mpr ho
        by_cases hv : SmallOffsetsPointsToSet.isOffsetValid p.offset
        · rw [containsB_add_small hWF hfalse hof hv]
          simp
        · rw [containsB_add_large hWF hfalse hof (Bool.eq_false_iff.mpr hv)]
          simp
  · have hWF3 := @WF_remove _ _ p hWF1
    rw [pointsTo_snd hWF3, containsB_remove hWF1]
    simp

/-- Witness for C5 at the empty table, the empty set and the pointer
(0, 5). -/
theorem C5_add_pointsTo_remove_witness :
    (WF [] SmallOffsetsPointsToSet.emptySet ∧
      ((⟨0, ⟨5⟩⟩ : Pointer).offset.isUnknown = false →
        containsB [] SmallOffsetsPointsToSet.emptySet ⟨0, Offset.UNKNOWN⟩ = false)) ∧
    (SmallOffsetsPointsToSet.pointsTo
        (SmallOffsetsPointsToSet.addPtr [] SmallOffsetsPointsToSet.emptySet ⟨0, ⟨5⟩⟩).1
        (SmallOffsetsPointsToSet.addPtr [] SmallOffsetsPointsToSet.emptySet ⟨0, ⟨5⟩⟩).2.1
        ⟨0, ⟨5⟩⟩).2 = true :=
  ⟨⟨by decide, by decide⟩,
    (C5_add_pointsTo_remove [] SmallOffsetsPointsToSet.emptySet ⟨0, ⟨5⟩⟩
      (by decide) (by decide)).1⟩

/-- C5 counterexample: on the state that holds (0, UNKNOWN) — built by
add(0, UNKNOWN) on the empty set — add((0, 5)) is a no-op, so the claimed
unconditional add-then-pointsTo round trip fails: pointsTo((0, 5)) is
false after add((0, 5)). -/
theorem C5_counterexample :
    (SmallOffsetsPointsToSet.pointsTo
        (SmallOffsetsPointsToSet.addPtr
          (SmallOffsetsPointsToSet.add [] SmallOffsetsPointsToSet.emptySet 0 Offset.UNKNOWN).1
          (SmallOffsetsPointsToSet.add [] SmallOffsetsPointsToSet.emptySet 0 Offset.UNKNOWN).2.1
          ⟨0, ⟨5⟩⟩).1
        (SmallOffsetsPointsToSet.addPtr
          (SmallOffsetsPointsToSet.add [] SmallOffsetsPointsToSet.emptySet 0 Offset.UNKNOWN).1
          (SmallOffsetsPointsToSet.add [] SmallOffsetsPointsToSet.emptySet 0 Offset.UNKNOWN).2.1
          ⟨0, ⟨5⟩⟩).2.1
        ⟨0, ⟨5⟩⟩).2 = false := by decide

/-- C4 (amended): add(target, off) returns true iff (target, off) was not
already present after normalization (i.e. iff mayPointTo was false); when
(target, UNKNOWN) is present the add is a no-op returning false; when
(target, UNKNOWN) is absent, an UNKNOWN-offset add purges all finite
entries for the target, inserts (target, UNKNOWN), and returns true. -/
theorem C4_add_semantics (tbl : List Target) (S : SmallOffsetsPointsToSet)
    (t : Target) (off : Offset) (hWF : WF tbl S) :
    ((SmallOffsetsPointsToSet.add tbl S t off).2.2 = true ↔
      (SmallOffsetsPointsToSet.mayPointTo tbl S ⟨t, off⟩).2 = false) ∧
    (containsB tbl S ⟨t, Offset.UNKNOWN⟩ = true →
      (SmallOffsetsPointsToSet.add tbl S t off).2.1 = S ∧
      (SmallOffsetsPointsToSet.add tbl S t off).2.2 = false) ∧
    (off.isUnknown = true → containsB tbl S ⟨t, Offset.UNKNOWN⟩ = false →
      (∀ k : ℕ, k ≠ UNKNOWN_OFFSET →
        containsB (SmallOffsetsPointsToSet.add tbl S t off).1
          (SmallOffsetsPointsToSet.add tbl S t off).2.1 ⟨t, ⟨k⟩⟩ = false) ∧
      containsB (SmallOffsetsPointsToSet.add tbl S t off).1
        (SmallOffsetsPointsToSet.add tbl S t off).2.1 ⟨t, Offset.UNKNOWN⟩ = true ∧
      (SmallOffsetsPointsToSet.add tbl S t off).2.2 = true) := by
  refine ⟨?_, ?_, ?_⟩
  · rw [add_ret hWF]
    cases (SmallOffsetsPointsToSet.mayPointTo tbl S ⟨t, off⟩).2 <;> simp
  · intro h
    rw [add_noop hWF h]
    exact ⟨rfl, rfl⟩
  · intro ho h
    refine ⟨?_, ?_, ?_⟩
    · intro k hk
      rw [containsB_add_unknown hWF h ho]
      simp [pointer_finite_ne_unknown hk]
    · rw [containsB_add_unknown hWF h ho]
      simp
    · rw [add_ret hWF, mayPointTo_snd hWF]
      have hpe : (⟨t, off⟩ : Pointer) = ⟨t, Offset.UNKNOWN⟩ := by
        rw [eq_UNKNOWN_of_isUnknown ho]
      rw [hpe]
      dsimp only
      rw [h]
      rfl

/-- Witness for C4 at the empty table, the empty set, target 0 and
offset 7. -/
theorem C4_add_semantics_witness :
    WF [] SmallOffsetsPointsToSet.emptySet ∧
    ((SmallOffsetsPointsToSet.add [] SmallOffsetsPointsToSet.emptySet 0 ⟨7⟩).2.2 = true ↔
      (SmallOffsetsPointsToSet.mayPointTo [] SmallOffsetsPointsToSet.emptySet
        ⟨0, ⟨7⟩⟩).2 = false) :=
  ⟨by decide,
    (C4_add_semantics [] SmallOffsetsPointsToSet.emptySet 0 ⟨7⟩ (by decide)).1⟩

/-- C4 counterexample: the union-built state holding both (0, UNKNOWN) and
(0, 5) is reachable; on it an UNKNOWN-offset add is a no-op (returns
false) and does not purge the finite entry (0, 5), contradicting the
claimed purge on every state. -/
theorem C4_counterexample :
    (SmallOffsetsPointsToSet.add
        (SmallOffsetsPointsToSet.add [] SmallOffsetsPointsToSet.emptySet 0 Offset.UNKNOWN).1
        (SmallOffsetsPointsToSet.addSet
          (SmallOffsetsPointsToSet.add [] SmallOffsetsPointsToSet.emptySet 0 Offset.UNKNOWN).2.1
          (SmallOffsetsPointsToSet.add [] SmallOffsetsPointsToSet.emptySet 0 ⟨5⟩).2.1).1
        0 Offset.UNKNOWN).2.2 = false ∧
    (SmallOffsetsPointsToSet.pointsTo
        (SmallOffsetsPointsToSet.add
          (SmallOffsetsPointsToSet.add [] SmallOffsetsPointsToSet.emptySet 0 Offset.UNKNOWN).1
          (SmallOffsetsPointsToSet.addSet
            (SmallOffsetsPointsToSet.add [] SmallOffsetsPointsToSet.emptySet 0 Offset.UNKNOWN).2.1
            (SmallOffsetsPointsToSet.add [] SmallOffsetsPointsToSet.emptySet 0 ⟨5⟩).2.1).1
          0 Offset.UNKNOWN).1
        (SmallOffsetsPointsToSet.add
          (SmallOffsetsPointsToSet.add [] SmallOffsetsPointsToSet.emptySet 0 Offset.UNKNOWN).1
          (SmallOffsetsPointsToSet.addSet
            (SmallOffsetsPointsToSet.add [] SmallOffsetsPointsToSet.emptySet 0 Offset.UNKNOWN).2.1
            (SmallOffsetsPointsToSet.add [] SmallOffsetsPointsToSet.emptySet 0 ⟨5⟩).2.1).1
          0 Offset.UNKNOWN).2.1
        ⟨0, ⟨5⟩⟩).2 = true := by
  constructor
  · decide
  · decide

/-- C6 (amended): after add(T, UNKNOWN), mayPointTo((T, k)) is true for
every finite k; and when (T, UNKNOWN) was not already present, the add
purges the finite entries so pointsTo((T, k)) is false for every finite
k. -/
theorem C6_unknown_add_queries (tbl : List Target)
    (S : SmallOffsetsPointsToSet) (T : Target) (hWF : WF tbl S) :
    (∀ k : ℕ, k ≠ UNKNOWN_OFFSET →
      (SmallOffsetsPointsToSet.mayPointTo
          (SmallOffsetsPointsToSet.add tbl S T Offset.UNKNOWN).1
          (SmallOffsetsPointsToSet.add tbl S T Offset.UNKNOWN).2.1
          ⟨T, ⟨k⟩⟩).2 = true) ∧
    (containsB tbl S ⟨T, Offset.UNKNOWN⟩ = false →
      ∀ k : ℕ, k ≠ UNKNOWN_OFFSET →
        (SmallOffsetsPointsToSet.pointsTo
            (SmallOffsetsPointsToSet.add tbl S T Offset.UNKNOWN).1
            (SmallOffsetsPointsToSet.add tbl S T Offset.UNKNOWN).2.1
            ⟨T, ⟨k⟩⟩).2 = false) := by
  have hWF1 := @WF_add tbl S T Offset.UNKNOWN hWF
  constructor
  · intro k hk
    rw [mayPointTo_snd hWF1]
    dsimp only
    by_cases h : containsB tbl S ⟨T, Offset.UNKNOWN⟩ = true
    · rw [add_noop hWF h]
      dsimp only
      rw [containsB_extTable hWF, containsB_extTable hWF, h]
      simp
    · have hfalse : containsB tbl S ⟨T, Offset.UNKNOWN⟩ = false :=
        Bool.eq_false_iff.mpr h
      have h2 : containsB (SmallOffsetsPointsToSet.add tbl S T Offset.UNKNOWN).1
          (SmallOffsetsPointsToSet.add tbl S T Offset.UNKNOWN).2.1
          ⟨T, Offset.UNKNOWN⟩ = true := by
        rw [containsB_add_unknown hWF hfalse isUnknown_UNKNOWN]
        simp
      rw [h2]
      simp
  · intro h k hk
    rw [pointsTo_snd hWF1, containsB_add_unknown hWF h isUnknown_UNKNOWN]
    simp [pointer_finite_ne_unknown hk]

/-- Witness for C6 at the table [0], the well-formed state with bit 7 set
(target 0, offset 7), and target 0. -/
theorem C6_unknown_add_queries_witness :
    WF [0] ⟨{7}, ∅⟩ ∧
    (containsB [0] ⟨{7}, ∅⟩ ⟨0, Offset.UNKNOWN⟩ = false →
      ∀ k : ℕ, k ≠ UNKNOWN_OFFSET →
        (SmallOffsetsPointsToSet.pointsTo
            (SmallOffsetsPointsToSet.add [0] ⟨{7}, ∅⟩ 0 Offset.UNKNOWN).1
            (SmallOffsetsPointsToSet.add [0] ⟨{7}, ∅⟩ 0 Offset.UNKNOWN).2.1
            ⟨0, ⟨k⟩⟩).2 = false) :=
  ⟨by decide, (C6_unknown_add_queries [0] ⟨{7}, ∅⟩ 0 (by decide)).2⟩

/-- C6 counterexample: on the reachable union-built state holding both
(0, UNKNOWN) and (0, 5), add(0, UNKNOWN) leaves the finite entry (0, 5)
in place, so pointsTo((0, 5)) is true afterwards, contradicting the
claim that it is false for every finite k on every state. -/
theorem C6_counterexample :
    (SmallOffsetsPointsToSet.pointsTo
        (SmallOffsetsPointsToSet.add
          (SmallOffsetsPointsToSet.add [] SmallOffsetsPointsToSet.emptySet 1 Offset.UNKNOWN).1
          (SmallOffsetsPointsToSet.addSet
            (SmallOffsetsPointsToSet.add [] SmallOffsetsPointsToSet.emptySet 1 Offset.UNKNOWN).2.1
            (SmallOffsetsPointsToSet.add [] SmallOffsetsPointsToSet.emptySet 1 ⟨5⟩).2.1).1
          1 Offset.UNKNOWN).1
        (SmallOffsetsPointsToSet.add
          (SmallOffsetsPointsToSet.add [] SmallOffsetsPointsToSet.emptySet 1 Offset.UNKNOWN).1
          (SmallOffsetsPointsToSet.addSet
            (SmallOffsetsPointsToSet.add [] SmallOffsetsPointsToSet.emptySet 1 Offset.UNKNOWN).2.1
            (SmallOffsetsPointsToSet.add [] SmallOffsetsPointsToSet.emptySet 1 ⟨5⟩).2.1).1
          1 Offset.UNKNOWN).2.1
        ⟨1, ⟨5⟩⟩).2 = true := by decide

/-- A set whose dense index has no bit at index 63 of any block holds no
unknown-offset entry, so the UNKNOWN invariant holds vacuously. -/
theorem InvUnknown_of_no63 {tbl : List Target} {S : SmallOffsetsPointsToSet}
    (h : ∀ i ∈ S.pointers, i % 64 ≠ 63) : InvUnknown tbl S := by
  intro T k hk hunk
  exfalso
  rw [containsB_iff] at hunk
  dsimp only at hunk
  rcases hunk with ⟨hv, hm, hmem⟩ | ⟨hv, hL⟩
  · rw [offsetIndex_UNKNOWN] at hmem
    have h2 := h _ hmem
    omega
  · rw [isOffsetValid_UNKNOWN] at hv
    exact absurd hv (by simp)

/-- A set whose dense index only has bits at index 63 of blocks and whose
overflow set is empty holds only unknown-offset entries, so the UNKNOWN
invariant holds. -/
theorem InvUnknown_of_all63 {tbl : List Target} {S : SmallOffsetsPointsToSet}
    (h : ∀ i ∈ S.pointers, i % 64 = 63) (hL : S.largePointers = ∅) :
    InvUnknown tbl S := by
  intro T k hk _
  rw [Bool.eq_false_iff]
  intro hcon
  rw [containsB_iff] at hcon
  dsimp only at hcon
  rcases hcon with ⟨hv, hm, hmem⟩ | ⟨hv, hmem⟩
  · have h2 := h _ hmem
    have h3 := offsetIndex_le_of_valid hv
    have h4 : offsetIndex (⟨k⟩ : Offset) = k :=
      offsetIndex_eq_offset_of_not_unknown (by simpa [Offset.isUnknown] using hk)
    have h5 := isOffsetValid_iff.mp hv
    dsimp only at h5
    rw [h4] at h2 h3
    rcases h5 with h5 | h5
    · exact hk h5
    · omega
  · rw [hL] at hmem
    exact absurd hmem (Finset.not_mem_empty _)

/-- C1 (amended): on a well-formed state satisfying the UNKNOWN invariant,
add of a (target, offset) pair, remove of a pointer, and removeAny of a
target all preserve the invariant (add/union of another whole set is a raw
union of representations and does not preserve it in general). -/
theorem C1_invariant_preservation (tbl : List Target)
    (S : SmallOffsetsPointsToSet) (hWF : WF tbl S) (hInv : InvUnknown tbl S) :
    (∀ t off, InvUnknown (SmallOffsetsPointsToSet.add tbl S t off).1
      (SmallOffsetsPointsToSet.add tbl S t off).2.1) ∧
    (∀ ptr, InvUnknown (SmallOffsetsPointsToSet.remove tbl S ptr).1
      (SmallOffsetsPointsToSet.remove tbl S ptr).2.1) ∧
    (∀ t, InvUnknown (SmallOffsetsPointsToSet.removeAny tbl S t).1
      (SmallOffsetsPointsToSet.removeAny tbl S t).2.1) := by
  refine ⟨?_, ?_, ?_⟩
  · intro t off T k hk hunk
    by_cases h : containsB tbl S ⟨t, Offset.UNKNOWN⟩ = true
    · rw [add_noop hWF h] at hunk ⊢
      dsimp only at hunk ⊢
      rw [containsB_extTable hWF] at hunk ⊢
      exact hInv T k hk hunk
    · have hfalse : containsB tbl S ⟨t, Offset.UNKNOWN⟩ = false :=
        Bool.eq_false_iff.mpr h
      by_cases ho : off.isUnknown
      · rw [containsB_add_unknown hWF hfalse ho] at hunk ⊢
        rw [Bool.eq_false_iff]
        intro hcon
        simp only [Bool.or_eq_true, Bool.and_eq_true, decide_eq_true_eq]
          at hunk hcon
        rcases hcon with ⟨hc1, hc2⟩ | hc3
        · rcases hunk with ⟨hu1, _⟩ | hu2
          · exact absurd hc1 (by rw [hInv T k hk hu1]; simp)
          · exact hc2 (congrArg Pointer.target hu2)
        · exact pointer_finite_ne_unknown hk hc3
      · have hof : off.isUnknown = false := Bool.eq_false_iff.mpr ho
        have heq : ∀ x : Pointer,
            containsB (SmallOffsetsPointsToSet.add tbl S t off).1
                (SmallOffsetsPointsToSet.add tbl S t off).2.1 x =
              (containsB tbl S x || decide (x = ⟨t, off⟩)) := by
          intro x
          by_cases hv : SmallOffsetsPointsToSet.isOffsetValid off
          · exact containsB_add_small hWF hfalse hof hv
          · exact containsB_add_large hWF hfalse hof (Bool.eq_false_iff.mpr hv)
        rw [heq] at hunk ⊢
        rw [Bool.eq_false_iff]
        intro hcon
        simp only [Bool.or_eq_true, decide_eq_true_eq] at hunk hcon
        rcases hunk with hu1 | hu2
        · rcases hcon with hc1 | hc2
          · exact absurd hc1 (by rw [hInv T k hk hu1]; simp)
          · have hT : T = t := congrArg Pointer.target hc2
            rw [hT] at hu1
            exact absurd hu1 (by rw [hfalse]; simp)
        · have hoff : Offset.UNKNOWN = off := congrArg Pointer.offset hu2
          rw [← hoff] at ho
          exact ho isUnknown_UNKNOWN
  · intro ptr T k hk hunk
    rw [containsB_remove hWF] at hunk ⊢
    rw [Bool.eq_false_iff]
    intro hcon
    simp only [Bool.and_eq_true, Bool.not_eq_true', decide_eq_false_iff_not]
      at hunk hcon
    exact absurd hcon.1 (by rw [hInv T k hk hunk.1]; simp)
  · intro t T k hk hunk
    rw [removeAny_fst] at hunk ⊢
    rw [containsB_removeAny] at hunk ⊢
    rw [Bool.eq_false_iff]
    intro hcon
    simp only [Bool.and_eq_true, decide_eq_true_eq] at hunk hcon
    exact absurd hcon.1 (by rw [hInv T k hk hunk.1]; simp)

/-- Witness for C1 at the empty table and empty set. -/
theorem C1_invariant_preservation_witness :
    (WF [] SmallOffsetsPointsToSet.emptySet ∧
      InvUnknown [] SmallOffsetsPointsToSet.emptySet) ∧
    InvUnknown (SmallOffsetsPointsToSet.add [] SmallOffsetsPointsToSet.emptySet 0 ⟨5⟩).1
      (SmallOffsetsPointsToSet.add [] SmallOffsetsPointsToSet.emptySet 0 ⟨5⟩).2.1 :=
  ⟨⟨by decide, InvUnknown_of_no63 (by decide)⟩,
    (C1_invariant_preservation [] SmallOffsetsPointsToSet.emptySet (by decide)
      (InvUnknown_of_no63 (by decide))).1 0 ⟨5⟩⟩

/-- C1 counterexample: the states built by add(0, 5) and add(0, UNKNOWN)
from the empty set each satisfy the invariant, but their union (the
add(otherSet) operation) holds both (0, UNKNOWN) and (0, 5), violating
it. -/
theorem C1_counterexample :
    InvUnknown (SmallOffsetsPointsToSet.add [] SmallOffsetsPointsToSet.emptySet 0 ⟨5⟩).1
      (SmallOffsetsPointsToSet.add [] SmallOffsetsPointsToSet.emptySet 0 ⟨5⟩).2.1 ∧
    InvUnknown (SmallOffsetsPointsToSet.add [] SmallOffsetsPointsToSet.emptySet 0 Offset.UNKNOWN).1
      (SmallOffsetsPointsToSet.add [] SmallOffsetsPointsToSet.emptySet 0 Offset.UNKNOWN).2.1 ∧
    ¬ InvUnknown (SmallOffsetsPointsToSet.add [] SmallOffsetsPointsToSet.emptySet 0 Offset.UNKNOWN).1
        (SmallOffsetsPointsToSet.addSet
          (SmallOffsetsPointsToSet.add [] SmallOffsetsPointsToSet.emptySet 0 Offset.UNKNOWN).2.1
          (SmallOffsetsPointsToSet.add [] SmallOffsetsPointsToSet.emptySet 0 ⟨5⟩).2.1).1 := by
  refine ⟨InvUnknown_of_no63 (by decide),
    InvUnknown_of_all63 (by decide) (by decide), ?_⟩
  intro hInv
  have h5 : (5 : ℕ) ≠ UNKNOWN_OFFSET := by norm_num [UNKNOWN_OFFSET]
  have hres := hInv 0 5 h5 (by decide)
  exact absurd hres (by decide)
